import Mathlib

/-!
Verification of the caption-segmentation and classification core of
src/streamlit_app.py, shallowly embedded in Lean.

The embedding mirrors the source:
  - character classes of the regexes r"(?<=[.!?])\s+|(?=#[^\s]+)",
    r"\s+" and r"[.!?]+" (ASCII model of the Python character classes);
  - classify_sentence (lines 93-99);
  - the re.split call (line 108), modelled as a left-to-right scan with
    the exact zero-width-match semantics of Python re.split;
  - the cleaning step re.sub(r"\s+", " ", s.strip()) (line 110);
  - the survival filter (line 111);
  - process_dataframe (lines 102-121), with the module-level global
    keyword_dict that the body of the function actually reads passed as
    an explicit extra argument;
  - the dictionary parse-and-fallback logic of lines 78-84, with the
    output of json.loads modelled as an abstract parse result.
-/

set_option linter.unusedVariables false

deriving instance DecidableEq for Except

namespace S2P

/-- The sentence-terminal character class [.!?] of the source regexes. -/
def isTermChar (c : Char) : Bool :=
  c == '.' || c == '!' || c == '?'

/-- The whitespace class of the regexes (ASCII part of Python \s) and of
str.strip with no arguments. -/
def isWsChar (c : Char) : Bool :=
  c == ' ' || c == '\t' || c == '\n' || c == '\r' ||
  c == '\x0b' || c == '\x0c'

/-- Substring containment: the Python expression needle in hay. -/
def strContains (hay needle : String) : Bool :=
  hay.toList.tails.any (fun t => needle.toList.isPrefixOf t)

/-- Python str.lower, on the ASCII range relevant to the sources. -/
def strLower (s : String) : String :=
  (s.toList.map Char.toLower).asString

/-- A Python dict mapping category names to keyword lists, in insertion
order (Python dicts iterate in insertion order). -/
abbrev KwDict : Type := List (String × List String)

/-- DEFAULT_DICT of src/streamlit_app.py, lines 51-56. -/
def DEFAULT_DICT : KwDict :=
  [ ("Fashion", ["style", "fashion", "wardrobe", "clothing", "outfit"]),
    ("Food", ["delicious", "food", "dinner", "lunch", "restaurant"]),
    ("Travel", ["travel", "trip", "vacation", "explore", "journey"]),
    ("Fitness", ["workout", "fitness", "exercise", "gym", "training"]) ]

/-- Whether any keyword of the list occurs case-insensitively in the
already-lowercased text: any(k.lower() in text_lower for k in kws). -/
def kwsMatch (text_lower : String) (kws : List String) : Bool :=
  kws.any (fun k => strContains text_lower (strLower k))

/-- The for-loop of classify_sentence over the dict items. -/
def classifyAux (text_lower : String) : KwDict → String
  | [] => "Uncategorized"
  | (cat, kws) :: rest =>
      if kwsMatch text_lower kws then cat else classifyAux text_lower rest

/-- classify_sentence of src/streamlit_app.py, lines 93-99. -/
def classify_sentence (text : String) (kw_dict : KwDict) : String :=
  classifyAux (strLower text) kw_dict

/-- One scanning step of re.split(r"(?<=[.!?])\s+|(?=#[^\s]+)", s),
scanning left to right one character at a time.  skipWs is true while
the scan is inside a whitespace run already consumed by a match of the
first branch; prevTerm says whether the previous character is a
sentence-terminal character; acc is the reversed piece accumulated since
the last split point.  The first branch starts consuming a whitespace
run that follows a terminal character and emits the piece before it;
the second branch is the zero-width look-ahead before a hashtag token,
which emits the piece and leaves the hash to begin the next piece,
exactly as Python re.split treats empty matches. -/
def splitAux : Bool → Bool → List Char → List Char → List (List Char)
  | _, _, [], acc => [acc.reverse]
  | skipWs, prevTerm, c :: rest, acc =>
      if skipWs && isWsChar c then
        splitAux true false rest acc
      else if prevTerm && isWsChar c then
        acc.reverse :: splitAux true false rest []
      else if c == '#' && (match rest with | r :: _ => !isWsChar r | [] => false) then
        acc.reverse :: splitAux false false rest [c]
      else
        splitAux false (isTermChar c) rest (c :: acc)

/-- The raw segments of a caption: the re.split call on line 108. -/
def splitCaption (s : String) : List String :=
  (splitAux false false s.toList []).map List.asString

/-- str.strip(): drop whitespace from both ends. -/
def stripChars (l : List Char) : List Char :=
  ((l.dropWhile isWsChar).reverse.dropWhile isWsChar).reverse

/-- re.sub(r"\s+", " ", l): collapse each whitespace run to one space.
The flag inRun is true while the scan is inside a run whose single
replacement space has already been emitted. -/
def collapseWs : Bool → List Char → List Char
  | _, [] => []
  | inRun, c :: rest =>
      if isWsChar c then
        if inRun then collapseWs true rest else ' ' :: collapseWs true rest
      else c :: collapseWs false rest

/-- The cleaning of line 110: re.sub(r"\s+", " ", s.strip()). -/
def cleanFrag (s : String) : String :=
  (collapseWs false (stripChars s.toList)).asString

/-- The survival test of line 111: clean and not re.fullmatch(r"[.!?]+", clean). -/
def keepB (clean : String) : Bool :=
  !clean.isEmpty && !(clean.toList.all isTermChar)

/-- An input table row: an association list from column name to cell text. -/
abbrev Row : Type := List (String × String)

/-- Cell access row[k]: the first entry with the given column name. -/
def lookup (r : Row) (k : String) : Option String :=
  (r.find? (fun kv => kv.1 == k)).map (fun kv => kv.2)

/-- df.rename(columns={"shortcode": "ID", "caption": "Context"}), line 104. -/
def renameRow (r : Row) : Row :=
  r.map (fun kv =>
    (if kv.1 == "shortcode" then "ID"
     else if kv.1 == "caption" then "Context" else kv.1, kv.2))

/-- One output record appended on lines 112-120. -/
structure OutputRow where
  id : String
  context : String
  sentenceId : Nat
  statement : String
  category : String
  deriving Repr, DecidableEq

/-- enumerate(sentences, start=1). -/
def enumerate1 (l : List String) : List (Nat × String) :=
  l.enum.map (fun p => (p.1 + 1, p.2))

/-- The inner loop of lines 109-120 over the enumerated raw segments.
Cell accesses that would raise a Python KeyError become the error
branch; classification reads the module-level keyword_dict, passed here
as kwGlobal. -/
def emitRows (kwGlobal : KwDict) (r' : Row) (ctx : String) :
    List (Nat × String) → Except String (List OutputRow)
  | [] => .ok []
  | (i, s) :: rest =>
      if keepB (cleanFrag s) then
        match lookup r' "ID" with
        | none => .error "KeyError: ID"
        | some idv =>
            match emitRows kwGlobal r' ctx rest with
            | .error e => .error e
            | .ok tl =>
                .ok ({ id := idv, context := ctx, sentenceId := i,
                       statement := cleanFrag s,
                       category := classify_sentence (cleanFrag s) kwGlobal } :: tl)
      else emitRows kwGlobal r' ctx rest

/-- The body of the outer loop of process_dataframe for one input row. -/
def processRow (kwGlobal : KwDict) (r : Row) : Except String (List OutputRow) :=
  let r' := renameRow r
  match lookup r' "Context" with
  | none => .error "KeyError: Context"
  | some ctx => emitRows kwGlobal r' ctx (enumerate1 (splitCaption ctx))

/-- df.iterrows() loop of lines 106-120, concatenating the appended rows. -/
def processRows (kwGlobal : KwDict) : List Row → Except String (List OutputRow)
  | [] => .ok []
  | r :: rest =>
      match processRow kwGlobal r with
      | .error e => .error e
      | .ok hd =>
          match processRows kwGlobal rest with
          | .error e => .error e
          | .ok tl => .ok (hd ++ tl)

/-- process_dataframe of src/streamlit_app.py, lines 102-121.  The
function takes kw_dict as a parameter, but its body classifies with the
module-level global keyword_dict (line 118), modelled here as the extra
explicit argument keyword_dict; kw_dict is unused, as in the source. -/
def process_dataframe (df : List Row) (kw_dict : KwDict) (keyword_dict : KwDict) :
    Except String (List OutputRow) :=
  processRows keyword_dict df

/-- The fragment pipeline of lines 108-111 for one caption: raw split,
clean, and survival filter, in order. -/
def fragmentsOf (ctx : String) : List String :=
  ((splitCaption ctx).map cleanFrag).filter keepB

/-! ## General lemmas about the embedded operations -/

/-- Membership in dropWhile implies membership in the original list. -/
theorem mem_of_mem_dropWhile {α : Type} (p : α → Bool) :
    ∀ (l : List α) (a : α), a ∈ l.dropWhile p → a ∈ l
  | [], _, h => by simp [List.dropWhile] at h
  | b :: l, a, h => by
    rw [List.dropWhile_cons] at h
    split at h
    · exact List.mem_cons_of_mem _ (mem_of_mem_dropWhile p l a h)
    · exact h

/-- A row that has an entry under a key looks it up successfully. -/
theorem lookup_some_of_mem (r : Row) (k v : String) (h : (k, v) ∈ r) :
    ∃ w, lookup r k = some w := by
  have hs : (r.find? (fun kv => kv.1 == k)).isSome := by
    rw [List.find?_isSome]
    exact ⟨(k, v), h, by simp⟩
  cases hf : r.find? (fun kv => kv.1 == k) with
  | none => rw [hf] at hs; simp at hs
  | some kv => exact ⟨kv.2, by unfold lookup; rw [hf]; rfl⟩

/-- Everything emitRows emits comes from an enumerated pair whose cleaned
segment survives the filter, with all fields filled as on lines 112-120. -/
theorem emitRows_mem_spec (g : KwDict) (r' : Row) (ctx : String) :
    ∀ (pairs : List (Nat × String)) (out : List OutputRow),
      emitRows g r' ctx pairs = Except.ok out →
      ∀ o ∈ out, ∃ s, (o.sentenceId, s) ∈ pairs ∧
        o.statement = cleanFrag s ∧ keepB (cleanFrag s) = true ∧
        o.category = classify_sentence (cleanFrag s) g ∧
        o.context = ctx ∧ lookup r' "ID" = some o.id := by
  intro pairs
  induction pairs with
  | nil =>
    intro out h o ho
    simp only [emitRows] at h
    cases h
    simp at ho
  | cons p rest ih =>
    obtain ⟨i, s⟩ := p
    intro out h o ho
    simp only [emitRows] at h
    by_cases hk : keepB (cleanFrag s)
    · rw [if_pos hk] at h
      cases hid : lookup r' "ID" with
      | none => rw [hid] at h; cases h
      | some idv =>
        rw [hid] at h
        cases hrec : emitRows g r' ctx rest with
        | error e => rw [hrec] at h; cases h
        | ok tl =>
          rw [hrec] at h
          cases h
          rcases List.mem_cons.mp ho with h1 | h2
          · subst h1
            exact ⟨s, List.mem_cons_self _ _, rfl, hk, rfl, rfl, rfl⟩
          · obtain ⟨t, hmem, hs, hkp, hc, hcx, hlast⟩ := ih tl hrec o h2
            exact ⟨t, List.mem_cons_of_mem _ hmem, hs, hkp, hc, hcx,
              hid.symm.trans hlast⟩
    · rw [if_neg hk] at h
      obtain ⟨t, hmem, hrest⟩ := ih out h o ho
      exact ⟨t, List.mem_cons_of_mem _ hmem, hrest⟩

/-- The sentence ids emitted by emitRows are, in order, a sublist of the
first components of the enumerated pairs it scanned. -/
theorem emitRows_ids_sublist (g : KwDict) (r' : Row) (ctx : String) :
    ∀ (pairs : List (Nat × String)) (out : List OutputRow),
      emitRows g r' ctx pairs = Except.ok out →
      (out.map OutputRow.sentenceId).Sublist (pairs.map Prod.fst) := by
  intro pairs
  induction pairs with
  | nil =>
    intro out h
    simp only [emitRows] at h
    cases h
    simp
  | cons p rest ih =>
    obtain ⟨i, s⟩ := p
    intro out h
    simp only [emitRows] at h
    by_cases hk : keepB (cleanFrag s)
    · rw [if_pos hk] at h
      cases hid : lookup r' "ID" with
      | none => rw [hid] at h; cases h
      | some idv =>
        rw [hid] at h
        cases hrec : emitRows g r' ctx rest with
        | error e => rw [hrec] at h; cases h
        | ok tl =>
          rw [hrec] at h
          cases h
          simpa using List.Sublist.cons₂ i (ih tl hrec)
    · rw [if_neg hk] at h
      exact List.Sublist.cons i (ih out h)

/-- When the row has an ID cell, emitRows never hits its error branch. -/
theorem emitRows_ok (g : KwDict) (r' : Row) (ctx v : String)
    (hid : lookup r' "ID" = some v) :
    ∀ pairs, ∃ out, emitRows g r' ctx pairs = Except.ok out := by
  intro pairs
  induction pairs with
  | nil => exact ⟨[], rfl⟩
  | cons p rest ih =>
    obtain ⟨i, s⟩ := p
    obtain ⟨tl, htl⟩ := ih
    by_cases hk : keepB (cleanFrag s)
    · exact ⟨{ id := v, context := ctx, sentenceId := i,
               statement := cleanFrag s,
               category := classify_sentence (cleanFrag s) g } :: tl,
        by simp [emitRows, hk, hid, htl]⟩
    · exact ⟨tl, by simp [emitRows, hk, htl]⟩

/-- Every row of the final table comes from processing one input row. -/
theorem processRows_mem_spec (g : KwDict) :
    ∀ (df : List Row) (out : List OutputRow),
      processRows g df = Except.ok out →
      ∀ o ∈ out, ∃ r ∈ df, ∃ outr, processRow g r = Except.ok outr ∧ o ∈ outr := by
  intro df
  induction df with
  | nil =>
    intro out h o ho
    simp only [processRows] at h
    cases h
    simp at ho
  | cons r rest ih =>
    intro out h o ho
    simp only [processRows] at h
    cases hr : processRow g r with
    | error e => rw [hr] at h; cases h
    | ok hd =>
      rw [hr] at h
      cases hrec : processRows g rest with
      | error e => rw [hrec] at h; cases h
      | ok tl =>
        rw [hrec] at h
        cases h
        rcases List.mem_append.mp ho with h1 | h2
        · exact ⟨r, List.mem_cons_self _ _, hd, hr, h1⟩
        · obtain ⟨r2, hr2, outr, hpr, hmem⟩ := ih tl hrec o h2
          exact ⟨r2, List.mem_cons_of_mem _ hr2, outr, hpr, hmem⟩

/-- Membership in the one-based enumeration gives positional access. -/
theorem mem_enumerate1 {l : List String} {i : Nat} {s : String}
    (h : (i, s) ∈ enumerate1 l) : 1 ≤ i ∧ l[i - 1]? = some s := by
  unfold enumerate1 at h
  obtain ⟨⟨j, t⟩, hmem, heq⟩ := List.mem_map.mp h
  have h1 : j + 1 = i := congrArg Prod.fst heq
  have h2 : t = s := congrArg Prod.snd heq
  subst h1
  subst h2
  refine ⟨Nat.le_add_left 1 j, ?_⟩
  have := List.mk_mem_enum_iff_getElem?.mp hmem
  simpa using this

/-- The classifier loop returns the first dict entry whose keywords match. -/
theorem classifyAux_eq_find (tl : String) : ∀ d : KwDict,
    classifyAux tl d =
      ((d.find? (fun p => kwsMatch tl p.2)).map Prod.fst).getD "Uncategorized"
  | [] => rfl
  | (cat, kws) :: rest => by
    by_cases h : kwsMatch tl kws
    · rw [List.find?_cons_of_pos (p := fun q => kwsMatch tl q.2) rest h]
      simp [classifyAux, h]
    · rw [List.find?_cons_of_neg (p := fun q => kwsMatch tl q.2) rest
        (by simpa using h)]
      simp only [classifyAux, if_neg h]
      exact classifyAux_eq_find tl rest

/-- C6: For every fragment and every dictionary, classification scans the
categories in their defined order and returns the first category with a
keyword occurring case-insensitively in the fragment, or Uncategorized
when none matches; in particular the dictionary with entries A and B that
both contain keyword x classifies the fragment y x as A, not B. -/
theorem C6_classify_first_match :
    (∀ (text : String) (d : KwDict),
        classify_sentence text d =
          ((d.find? (fun p => kwsMatch (strLower text) p.2)).map Prod.fst).getD
            "Uncategorized") ∧
    classify_sentence "y x" [("A", ["x"]), ("B", ["x", "y"])] = "A" := by
  refine ⟨fun text d => classifyAux_eq_find (strLower text) d, by decide⟩

/-- C2 counterexample: on the spec example row, the transform does not
emit sentence ids 1, 2, 3 with all three categories Fashion. -/
theorem C2_counterexample :
    (process_dataframe
        [[("shortcode", "p1"), ("caption", "Love this outfit! #fashion #ootd")]]
        DEFAULT_DICT DEFAULT_DICT).map
      (fun out => out.map (fun o => (o.sentenceId, o.statement, o.category)))
      ≠ Except.ok [(1, "Love this outfit!", "Fashion"),
                   (2, "#fashion", "Fashion"),
                   (3, "#ootd", "Fashion")] := by
  decide

/-- C2 amended: the spec example row yields the fragments Love this
outfit!, hash-fashion and hash-ootd with sentence ids 1, 3, 4 (the empty
raw segment between the sentence and the first hashtag consumes id 2)
and categories Fashion, Fashion, Uncategorized (no default keyword
occurs in the last hashtag). -/
theorem C2_example_actual_output :
    (process_dataframe
        [[("shortcode", "p1"), ("caption", "Love this outfit! #fashion #ootd")]]
        DEFAULT_DICT DEFAULT_DICT).map
      (fun out => out.map (fun o => (o.sentenceId, o.statement, o.category)))
      = Except.ok [(1, "Love this outfit!", "Fashion"),
                   (3, "#fashion", "Fashion"),
                   (4, "#ootd", "Uncategorized")] := by
  rfl

/-- C3: the categories emitted by process_dataframe are determined by the
module-level keyword_dict, not by the kw_dict argument of the call: with
argument the empty dictionary but global DEFAULT_DICT the caption
fashion is classified Fashion, and with argument DEFAULT_DICT but global
empty it is classified Uncategorized. -/
theorem C3_global_dict_used :
    (process_dataframe [[("shortcode", "p1"), ("caption", "fashion")]]
        [] DEFAULT_DICT).map (fun out => out.map OutputRow.category)
      = Except.ok ["Fashion"] ∧
    (process_dataframe [[("shortcode", "p1"), ("caption", "fashion")]]
        DEFAULT_DICT []).map (fun out => out.map OutputRow.category)
      = Except.ok ["Uncategorized"] :=
  ⟨rfl, rfl⟩

/-- C1 counterexample: for the caption dot dot dot space hello, exactly
one fragment survives cleaning, yet its sentence id is 2, not 1: the ids
are not the gap-free sequence 1..N over surviving fragments. -/
theorem C1_counterexample :
    (processRow DEFAULT_DICT [("shortcode", "p1"), ("caption", "... hello")]).map
      (fun out => out.map OutputRow.sentenceId) = Except.ok [2] ∧
    (fragmentsOf "... hello").length = 1 ∧
    ([2] : List Nat) ≠ [1] := by
  refine ⟨rfl, rfl, by decide⟩

/-- The first components of the one-based enumeration strictly increase. -/
theorem enumerate1_fst_pairwise (l : List String) :
    ((enumerate1 l).map Prod.fst).Pairwise (· < ·) := by
  unfold enumerate1
  rw [List.map_map]
  have hcomp : (Prod.fst ∘ fun p : Nat × String => (p.1 + 1, p.2)) =
      (fun p : Nat × String => p.1 + 1) := rfl
  rw [hcomp]
  have h1 : (l.enum.map Prod.fst).Pairwise (· < ·) := by
    rw [List.enum_map_fst]
    exact List.pairwise_lt_range _
  have h2 : l.enum.Pairwise (fun a b => a.1 < b.1) := List.pairwise_map.mp h1
  have h3 : l.enum.Pairwise (fun a b => a.1 + 1 < b.1 + 1) :=
    h2.imp (fun h => Nat.succ_lt_succ h)
  exact List.pairwise_map.mpr h3

/-- C10: the sentence ids of the output rows derived from one input row
form a strictly increasing sequence in emission order. -/
theorem C10_ids_strictly_increasing (g : KwDict) (r : Row) (out : List OutputRow)
    (h : processRow g r = Except.ok out) :
    (out.map OutputRow.sentenceId).Pairwise (· < ·) := by
  cases hctx : lookup (renameRow r) "Context" with
  | none =>
    simp only [processRow, hctx] at h
    exact absurd h (by simp)
  | some ctx =>
    simp only [processRow, hctx] at h
    have hsub := emitRows_ids_sublist g (renameRow r) ctx _ out h
    exact (enumerate1_fst_pairwise (splitCaption ctx)).sublist hsub

/-- C10 witness at the spec example row, whose ids are 1, 3, 4. -/
theorem C10_witness :
    (([{ id := "p1", context := "Love this outfit! #fashion #ootd",
         sentenceId := 1, statement := "Love this outfit!",
         category := "Fashion" },
       { id := "p1", context := "Love this outfit! #fashion #ootd",
         sentenceId := 3, statement := "#fashion", category := "Fashion" },
       { id := "p1", context := "Love this outfit! #fashion #ootd",
         sentenceId := 4, statement := "#ootd",
         category := "Uncategorized" }] : List OutputRow).map
      OutputRow.sentenceId).Pairwise (· < ·) :=
  C10_ids_strictly_increasing DEFAULT_DICT
    [("shortcode", "p1"), ("caption", "Love this outfit! #fashion #ootd")] _ rfl

/-- C1 amended: each sentence id of an output row is the one-based
position of its source raw segment in the full raw split of the caption,
so dropped raw segments consume ids and the surviving ids may have gaps
and start above 1; the statement is the cleaned form of the raw segment
at that position and survives the filter. -/
theorem C1_ids_are_raw_positions (g : KwDict) (r : Row) (ctx : String)
    (out : List OutputRow)
    (hctx : lookup (renameRow r) "Context" = some ctx)
    (h : processRow g r = Except.ok out) :
    ∀ o ∈ out, 1 ≤ o.sentenceId ∧
      ∃ raw, (splitCaption ctx)[o.sentenceId - 1]? = some raw ∧
        o.statement = cleanFrag raw ∧ keepB o.statement = true := by
  intro o ho
  simp only [processRow, hctx] at h
  obtain ⟨t, hmem, hs, hkp, _, _, _⟩ :=
    emitRows_mem_spec g (renameRow r) ctx _ out h o ho
  obtain ⟨h1, h2⟩ := mem_enumerate1 hmem
  exact ⟨h1, t, h2, hs, by rw [hs]; exact hkp⟩

/-- C1 witness: the single surviving fragment of the caption dot dot dot
space hello sits at raw position 2. -/
theorem C1_witness :
    1 ≤ 2 ∧ ∃ raw, (splitCaption "... hello")[2 - 1]? = some raw ∧
      ("hello" : String) = cleanFrag raw ∧ keepB "hello" = true :=
  C1_ids_are_raw_positions DEFAULT_DICT
    [("shortcode", "p1"), ("caption", "... hello")] "... hello"
    [{ id := "p1", context := "... hello", sentenceId := 2,
       statement := "hello", category := "Uncategorized" }]
    rfl rfl
    { id := "p1", context := "... hello", sentenceId := 2,
      statement := "hello", category := "Uncategorized" }
    (List.mem_cons_self _ _)

/-- C8: every output row statement is non-empty and does not consist
solely of terminal punctuation characters. -/
theorem C8_statement_nonempty (df : List Row) (kw g : KwDict)
    (out : List OutputRow)
    (h : process_dataframe df kw g = Except.ok out) :
    ∀ o ∈ out, o.statement ≠ "" ∧ (o.statement.toList.all isTermChar) = false := by
  intro o ho
  have h0 : processRows g df = Except.ok out := h
  obtain ⟨r, hr, outr, hpr, hmem⟩ := processRows_mem_spec g df out h0 o ho
  cases hctx : lookup (renameRow r) "Context" with
  | none =>
    simp only [processRow, hctx] at hpr
    exact absurd hpr (by simp)
  | some ctx =>
    simp only [processRow, hctx] at hpr
    obtain ⟨t, _, hs, hkp, _, _, _⟩ :=
      emitRows_mem_spec g (renameRow r) ctx _ outr hpr o hmem
    rw [hs]
    unfold keepB at hkp
    rw [Bool.and_eq_true] at hkp
    obtain ⟨he, ha⟩ := hkp
    refine ⟨fun hemp => ?_, ?_⟩
    · rw [hemp] at he
      exact absurd he (by decide)
    · rw [Bool.not_eq_true'] at ha
      exact ha

/-- C8 witness at a concrete table. -/
theorem C8_witness :
    ("hello" : String) ≠ "" ∧ (("hello" : String).toList.all isTermChar) = false :=
  C8_statement_nonempty [[("shortcode", "p1"), ("caption", "... hello")]]
    DEFAULT_DICT DEFAULT_DICT
    [{ id := "p1", context := "... hello", sentenceId := 2,
       statement := "hello", category := "Uncategorized" }]
    rfl
    { id := "p1", context := "... hello", sentenceId := 2,
      statement := "hello", category := "Uncategorized" }
    (List.mem_cons_self _ _)

/-- When all rows carry the two required columns, no error ever occurs. -/
theorem processRows_total (g : KwDict) :
    ∀ df : List Row,
      (∀ r ∈ df, (∃ v, ("shortcode", v) ∈ r) ∧ (∃ v, ("caption", v) ∈ r)) →
      ∃ out, processRows g df = Except.ok out := by
  intro df
  induction df with
  | nil => exact fun _ => ⟨[], rfl⟩
  | cons r rest ih =>
    intro h
    obtain ⟨⟨v1, hv1⟩, ⟨v2, hv2⟩⟩ := h r (List.mem_cons_self _ _)
    have hid : ("ID", v1) ∈ renameRow r := by
      unfold renameRow
      exact List.mem_map.mpr ⟨("shortcode", v1), hv1, rfl⟩
    have hcx : ("Context", v2) ∈ renameRow r := by
      unfold renameRow
      exact List.mem_map.mpr ⟨("caption", v2), hv2, rfl⟩
    obtain ⟨w1, hw1⟩ := lookup_some_of_mem _ _ _ hid
    obtain ⟨w2, hw2⟩ := lookup_some_of_mem _ _ _ hcx
    obtain ⟨outr, houtr⟩ :=
      emitRows_ok g (renameRow r) w2 w1 hw1 (enumerate1 (splitCaption w2))
    obtain ⟨outt, houtt⟩ := ih (fun q hq => h q (List.mem_cons_of_mem _ hq))
    refine ⟨outr ++ outt, ?_⟩
    simp only [processRows, processRow, hw2, houtr, houtt]

/-- C7: the transform is total on its documented domain: for any table
whose rows all carry the shortcode and caption fields and any
dictionaries, process_dataframe reaches no error branch. -/
theorem C7_transform_total (df : List Row) (kw g : KwDict)
    (h : ∀ r ∈ df, (∃ v, ("shortcode", v) ∈ r) ∧ (∃ v, ("caption", v) ∈ r)) :
    ∃ out, process_dataframe df kw g = Except.ok out :=
  processRows_total g df h

/-- C7 witness at a concrete two-row table. -/
theorem C7_witness :
    ∃ out, process_dataframe
      [[("shortcode", "p1"), ("caption", "hi there. #x")],
       [("shortcode", "p2"), ("caption", "...")]]
      DEFAULT_DICT DEFAULT_DICT = Except.ok out :=
  C7_transform_total _ DEFAULT_DICT DEFAULT_DICT (by
    intro r hr
    rcases List.mem_cons.mp hr with h1 | h2
    · subst h1
      exact ⟨⟨"p1", List.mem_cons_self _ _⟩,
        ⟨"hi there. #x", List.mem_cons_of_mem _ (List.mem_cons_self _ _)⟩⟩
    · rcases List.mem_cons.mp h2 with h3 | h4
      · subst h3
        exact ⟨⟨"p2", List.mem_cons_self _ _⟩,
          ⟨"...", List.mem_cons_of_mem _ (List.mem_cons_self _ _)⟩⟩
      · simp at h4)

/-- A JSON value: the possible results of json.loads on line 79. -/
inductive Json where
  | null
  | bool (b : Bool)
  | num (n : Int)
  | str (s : String)
  | arr (elems : List Json)
  | obj (fields : List (String × Json))

/-- The JSON encoding of a keyword dictionary. -/
def dictToJson (d : KwDict) : Json :=
  Json.obj (d.map (fun p => (p.1, Json.arr (p.2.map Json.str))))

/-- Whether a JSON value is an array of strings. -/
def isStrListJson : Json → Bool
  | Json.arr l => l.all (fun j => match j with | Json.str _ => true | _ => false)
  | _ => false

/-- Whether a JSON value is an object all of whose values are arrays of
strings: the shape the spec calls an object-of-lists. -/
def isObjOfStrLists : Json → Bool
  | Json.obj o => o.all (fun p => isStrListJson p.2)
  | _ => false

/-- Lines 78-84: keyword_dict is the parse result when the text parses
and the root is an object (the isinstance check), and DEFAULT_DICT
otherwise; no other shape validation is performed.  The result of
json.loads on the text is modelled as an abstract parse outcome, error
standing for text that is empty or fails to parse. -/
def resolve_keyword_dict (parsed : Except String Json) : Json :=
  match parsed with
  | Except.error _ => dictToJson DEFAULT_DICT
  | Except.ok j =>
      match j with
      | Json.obj o => Json.obj o
      | _ => dictToJson DEFAULT_DICT

/-- First key of a JSON object, used to tell two objects apart. -/
def jsonFirstKey : Json → Option String
  | Json.obj ((k, _) :: _) => some k
  | _ => none

/-- C4 counterexample: a parsed object whose single value is a number is
not an object-of-string-lists, yet the code keeps it instead of
substituting the default dictionary. -/
theorem C4_counterexample :
    isObjOfStrLists (Json.obj [("A", Json.num 5)]) = false ∧
    resolve_keyword_dict (Except.ok (Json.obj [("A", Json.num 5)]))
      ≠ dictToJson DEFAULT_DICT := by
  refine ⟨rfl, fun h => ?_⟩
  have h2 : some "A" = some "Fashion" := congrArg jsonFirstKey h
  exact absurd (Option.some.inj h2) (by decide)

/-- C4 amended: the default dictionary is substituted exactly when the
text is empty or fails to parse as JSON, or parses to a non-object; an
object is kept whatever the shape of its values, and processing
proceeds in every case. -/
theorem C4_fallback_on_parse_error_or_nonobject (parsed : Except String Json)
    (h : ∀ j, parsed = Except.ok j → ∀ o, j ≠ Json.obj o) :
    resolve_keyword_dict parsed = dictToJson DEFAULT_DICT := by
  cases parsed with
  | error e => rfl
  | ok j =>
    cases j with
    | obj o => exact absurd rfl (h (Json.obj o) rfl o)
    | null => rfl
    | bool b => rfl
    | num n => rfl
    | str t => rfl
    | arr l => rfl

/-- C4 witness: a JSON array at the root falls back to the default. -/
theorem C4_witness :
    resolve_keyword_dict (Except.ok (Json.arr [])) = dictToJson DEFAULT_DICT :=
  C4_fallback_on_parse_error_or_nonobject (Except.ok (Json.arr []))
    (fun j hj o => by
      injection hj with h1
      subst h1
      intro hcon
      cases hcon)

/-- Modelled from the spec: the include-hashtags configuration flag of
the Segmenter contract (spec section 4.1) does not appear in
src/streamlit_app.py, whose split always applies both boundary rules.
With include_hashtags false only rule (a) applies: a boundary
immediately after any whitespace run that follows a sentence-terminal
character, the run being consumed. -/
def splitAuxNoHash : Bool → Bool → List Char → List Char → List (List Char)
  | _, _, [], acc => [acc.reverse]
  | skipWs, prevTerm, c :: rest, acc =>
      if skipWs && isWsChar c then
        splitAuxNoHash true false rest acc
      else if prevTerm && isWsChar c then
        acc.reverse :: splitAuxNoHash true false rest []
      else
        splitAuxNoHash false (isTermChar c) rest (c :: acc)

/-- Modelled from the spec: segment(context, false), followed by spec
section 4.1 steps 3 to 5: clean each raw segment, drop non-survivors,
and pair each surviving fragment with its one-based position. -/
def segmentNoHashtags (s : String) : List (Nat × String) :=
  enumerate1 ((((splitAuxNoHash false false s.toList []).map List.asString).map
    cleanFrag).filter keepB)

/-- C5 counterexample: with hashtag splitting off, the spec example
caption still splits after the exclamation mark, so it does not yield a
single fragment equal to the whole caption. -/
theorem C5_counterexample :
    segmentNoHashtags "Love this outfit! #fashion #ootd"
      ≠ [(1, "Love this outfit! #fashion #ootd")] := by
  decide

/-- C5 amended: with the include-hashtags flag false, segmentation does
not split at hashtags, but sentence-terminator splitting still applies:
the example caption yields the two fragments Love this outfit! and the
hashtag tail, with sentence ids 1 and 2. -/
theorem C5_no_hashtag_split :
    segmentNoHashtags "Love this outfit! #fashion #ootd"
      = [(1, "Love this outfit!"), (2, "#fashion #ootd")] := rfl

/-- With no terminal characters and no hashes, the split scan never
fires a boundary rule and returns one raw segment. -/
theorem splitAux_no_specials :
    ∀ (l acc : List Char),
      (∀ c ∈ l, isTermChar c = false ∧ (c == '#') = false) →
      splitAux false false l acc = [acc.reverse ++ l]
  | [], acc, _ => by simp [splitAux]
  | c :: rest, acc, h => by
    obtain ⟨ht, hh⟩ := h c (List.mem_cons_self _ _)
    have hrest : ∀ d ∈ rest, isTermChar d = false ∧ (d == '#') = false :=
      fun d hd => h d (List.mem_cons_of_mem _ hd)
    have hstep : splitAux false false (c :: rest) acc
        = splitAux false false rest (c :: acc) := by
      simp [splitAux, hh, ht]
    rw [hstep, splitAux_no_specials rest (c :: acc) hrest]
    simp

/-- Characters of a stripped list come from the original list. -/
theorem mem_stripChars (l : List Char) (c : Char) (h : c ∈ stripChars l) :
    c ∈ l := by
  unfold stripChars at h
  rw [List.mem_reverse] at h
  have h1 := mem_of_mem_dropWhile isWsChar _ _ h
  rw [List.mem_reverse] at h1
  exact mem_of_mem_dropWhile isWsChar _ _ h1

/-- Characters after whitespace collapsing are spaces or original. -/
theorem mem_collapseWs : ∀ (b : Bool) (l : List Char) (c : Char),
    c ∈ collapseWs b l → c = ' ' ∨ c ∈ l := by
  intro b l
  induction l generalizing b with
  | nil => intro c h; simp [collapseWs] at h
  | cons d rest ih =>
    intro c h
    simp only [collapseWs] at h
    by_cases hw : isWsChar d
    · rw [if_pos hw] at h
      by_cases hb : b = true
      · subst hb
        rw [if_pos rfl] at h
        rcases ih true c h with h1 | h2
        · exact Or.inl h1
        · exact Or.inr (List.mem_cons_of_mem _ h2)
      · rw [if_neg hb] at h
        rcases List.mem_cons.mp h with h1 | h2
        · exact Or.inl h1
        · rcases ih true c h2 with h3 | h4
          · exact Or.inl h3
          · exact Or.inr (List.mem_cons_of_mem _ h4)
    · rw [if_neg hw] at h
      rcases List.mem_cons.mp h with h1 | h2
      · exact Or.inr (h1 ▸ List.mem_cons_self _ _)
      · rcases ih false c h2 with h3 | h4
        · exact Or.inl h3
        · exact Or.inr (List.mem_cons_of_mem _ h4)

/-- Characters of a cleaned fragment are spaces or come from the input. -/
theorem mem_cleanFrag (s : String) (c : Char) (h : c ∈ (cleanFrag s).toList) :
    c = ' ' ∨ c ∈ s.toList := by
  unfold cleanFrag at h
  rw [List.toList_asString] at h
  rcases mem_collapseWs false _ c h with h1 | h2
  · exact Or.inl h1
  · exact Or.inr (mem_stripChars _ _ h2)

/-- C9: a caption with none of the four special characters yields one
fragment, its cleaned form, or none when that form is empty. -/
theorem C9_no_specials_single_fragment (ctx : String)
    (h : ∀ c ∈ ctx.toList, isTermChar c = false ∧ (c == '#') = false) :
    fragmentsOf ctx = if cleanFrag ctx = "" then [] else [cleanFrag ctx] := by
  have hsplit : splitCaption ctx = [ctx] := by
    unfold splitCaption
    rw [splitAux_no_specials ctx.toList [] h]
    simp only [List.reverse_nil, List.nil_append, List.map_cons, List.map_nil]
    rw [String.asString_toList]
  unfold fragmentsOf
  rw [hsplit]
  by_cases hemp : cleanFrag ctx = ""
  · rw [if_pos hemp]
    have hk : keepB (cleanFrag ctx) = false := by
      rw [hemp]; decide
    simp [hk]
  · rw [if_neg hemp]
    have hkeep : keepB (cleanFrag ctx) = true := by
      unfold keepB
      rw [Bool.and_eq_true]
      constructor
      · simp only [Bool.not_eq_true']
        cases hie : (cleanFrag ctx).isEmpty
        · rfl
        · exact absurd ((String.isEmpty_iff _).mp hie) hemp
      · have hne : (cleanFrag ctx).toList ≠ [] := by
          intro hnil
          exact hemp (String.toList_inj.mp (by rw [hnil]; rfl))
        obtain ⟨d, rest2, hd⟩ := List.exists_cons_of_ne_nil hne
        cases hall : (cleanFrag ctx).toList.all isTermChar
        · rfl
        · exfalso
          have hdmem : d ∈ (cleanFrag ctx).toList := hd ▸ List.mem_cons_self _ _
          have hterm : isTermChar d = true := List.all_eq_true.mp hall d hdmem
          rcases mem_cleanFrag ctx d hdmem with h1 | h2
          · rw [h1] at hterm
            exact absurd hterm (by decide)
          · rw [(h d h2).1] at hterm
            exact absurd hterm (by decide)
    simp [hkeep]

/-- C9 witness at a caption with no special characters. -/
theorem C9_witness :
    fragmentsOf "hello  world" = if cleanFrag "hello  world" = "" then []
      else [cleanFrag "hello  world"] :=
  C9_no_specials_single_fragment "hello  world" (by decide)

end S2P
